import Mathlib

/-!
Shallow embedding of the authentication/authorization core of the
`practicing-go` repository: password credential handling, signed
bearer-token issuance and verification, role-to-permission policy
resolution with wildcard matching, and the request pipeline middleware.

Go strings are modelled as lists of characters, Go maps as association
lists with map-style (unique-key, overwrite-on-insert) operations, and
fallible Go functions as `Except`-valued Lean functions.
-/

namespace PGo

/-- Go strings modelled as lists of characters. -/
abbrev GoStr := List Char

/-- Conversion from a Lean string literal to the Go string model. -/
def gs (s : String) : GoStr := s.data

/-- Model of Go `strings.HasPrefix pre` tested against `s` (argument order:
`startsWith s pre` is true when `pre` is an initial segment of `s`). -/
def startsWith : GoStr → GoStr → Bool
  | _, [] => true
  | [], _ :: _ => false
  | c :: s, p :: ps => c == p && startsWith s ps

/-- Model of Go `strings.HasSuffix`: `hasSuffix s suf` is true when `suf`
is a final segment of `s`. -/
def hasSuffix (s suf : GoStr) : Bool := startsWith s.reverse suf.reverse

/-- Model of Go `strings.TrimSuffix`: drop `suf` from the end of `s` when
present, otherwise return `s` unchanged. -/
def trimSuffix (s suf : GoStr) : GoStr :=
  if hasSuffix s suf then s.take (s.length - suf.length) else s

theorem startsWith_iff (s pre : GoStr) :
    startsWith s pre = true ↔ ∃ t, s = pre ++ t := by
  induction pre generalizing s with
  | nil => simp [startsWith]
  | cons p ps ih =>
    cases s with
    | nil =>
      simp [startsWith]
    | cons c s =>
      simp only [startsWith, Bool.and_eq_true, beq_iff_eq, ih]
      constructor
      · rintro ⟨rfl, t, rfl⟩
        exact ⟨t, rfl⟩
      · rintro ⟨t, ht⟩
        cases ht
        exact ⟨rfl, t, rfl⟩

theorem hasSuffix_iff (s suf : GoStr) :
    hasSuffix s suf = true ↔ ∃ t, s = t ++ suf := by
  unfold hasSuffix
  rw [startsWith_iff]
  constructor
  · rintro ⟨t, ht⟩
    refine ⟨t.reverse, ?_⟩
    have := congrArg List.reverse ht
    simpa using this
  · rintro ⟨t, rfl⟩
    exact ⟨t.reverse, by simp⟩

theorem hasSuffix_append (t suf : GoStr) : hasSuffix (t ++ suf) suf = true :=
  (hasSuffix_iff _ _).mpr ⟨t, rfl⟩

theorem trimSuffix_append (t suf : GoStr) : trimSuffix (t ++ suf) suf = t := by
  unfold trimSuffix
  rw [hasSuffix_append]
  simp

theorem hasSuffix_decomp {s suf : GoStr} (h : hasSuffix s suf = true) :
    s = trimSuffix s suf ++ suf := by
  obtain ⟨t, rfl⟩ := (hasSuffix_iff s suf).mp h
  rw [trimSuffix_append]

/-- The wildcard marker in permission strings, Go literal `":*"`. -/
def wcSuffix : GoStr := [':', '*']

/-- Embedding of `utils.HasPermission` (src/unnamed/part_006, lines
416-430): scan the permission list; grant on a verbatim match, or when an
entry ends in `":*"` and the required permission starts with the entry's
resource segment followed by a literal colon. -/
def HasPermission : List GoStr → GoStr → Bool
  | [], _ => false
  | p :: rest, req =>
    if p = req then true
    else if hasSuffix p wcSuffix && startsWith req (trimSuffix p wcSuffix ++ [':']) then true
    else HasPermission rest req

/-- The policy map produced by the role service: role slug to permission
set. A Go `map[string][]string` is modelled as an association list with
unique keys maintained by `policyInsert`. -/
abbrev PolicyMap := List (GoStr × List GoStr)

/-- Go map indexing `policy[role]` with its `ok` flag, modelled as an
`Option`-returning association-list lookup. -/
def lookupPolicy : PolicyMap → GoStr → Option (List GoStr)
  | [], _ => none
  | (k, v) :: rest, role => if k = role then some v else lookupPolicy rest role

/-- Go map assignment `policy[slug] = perms`: overwrite the existing
binding for the key when present, otherwise append a fresh one. -/
def policyInsert : PolicyMap → GoStr → List GoStr → PolicyMap
  | [], k, v => [(k, v)]
  | (k', v') :: rest, k, v =>
    if k' = k then (k, v) :: rest else (k', v') :: policyInsert rest k v

/-- Embedding of the user entity (src/internal/entities/user/handler.go,
`type User struct`). The `Setting` and `Custom` JSON-blob fields carry no
logic in the verified claims and are omitted. -/
structure User where
  id : Int
  username : GoStr
  displayName : GoStr
  hash : GoStr
  role : GoStr
  active : Bool
deriving DecidableEq, Repr

/-- Embedding of `User.Can` (src/unnamed/part_004, lines 55-64): look up
the user's role slug in the policy map; absence denies immediately,
otherwise defer to `HasPermission`. -/
def User.Can (u : User) (requiredPerm : GoStr) (policy : PolicyMap) : Bool :=
  match lookupPolicy policy u.role with
  | none => false
  | some myPerms => HasPermission myPerms requiredPerm

theorem hasPermission_of_mem {perms : List GoStr} {req : GoStr}
    (h : req ∈ perms) : HasPermission perms req = true := by
  induction perms with
  | nil => cases h
  | cons p rest ih =>
    unfold HasPermission
    by_cases hpq : p = req
    · simp [hpq]
    · rcases List.mem_cons.mp h with hh | hh
      · exact absurd hh.symm hpq
      · by_cases hw : (hasSuffix p wcSuffix &&
            startsWith req (trimSuffix p wcSuffix ++ [':'])) = true
        · simp [hpq, hw]
        · simp [hpq, hw, ih hh]

theorem hasPermission_of_wildcard {perms : List GoStr} {req X : GoStr}
    (hmem : (X ++ wcSuffix) ∈ perms)
    (hpre : startsWith req (X ++ [':']) = true) :
    HasPermission perms req = true := by
  induction perms with
  | nil => cases hmem
  | cons p rest ih =>
    unfold HasPermission
    by_cases hpq : p = req
    · simp [hpq]
    · rcases List.mem_cons.mp hmem with hh | hh
      · have hw : (hasSuffix p wcSuffix &&
            startsWith req (trimSuffix p wcSuffix ++ [':'])) = true := by
          rw [← hh, hasSuffix_append, trimSuffix_append]
          simpa using hpre
        simp [hpq, hw]
      · by_cases hw : (hasSuffix p wcSuffix &&
            startsWith req (trimSuffix p wcSuffix ++ [':'])) = true
        · simp [hpq, hw]
        · simp [hpq, hw, ih hh]

theorem hasPermission_elim {perms : List GoStr} {req : GoStr}
    (h : HasPermission perms req = true) :
    req ∈ perms ∨
      ∃ X, (X ++ wcSuffix) ∈ perms ∧ startsWith req (X ++ [':']) = true := by
  induction perms with
  | nil => simp [HasPermission] at h
  | cons p rest ih =>
    unfold HasPermission at h
    by_cases hpq : p = req
    · exact Or.inl (by simp [hpq])
    · rw [if_neg hpq] at h
      by_cases hw : (hasSuffix p wcSuffix &&
          startsWith req (trimSuffix p wcSuffix ++ [':'])) = true
      · simp only [Bool.and_eq_true] at hw
        rcases hw with ⟨hsuf, hpre⟩
        refine Or.inr ⟨trimSuffix p wcSuffix, ?_, hpre⟩
        exact List.mem_cons.mpr (Or.inl (hasSuffix_decomp hsuf).symm)
      · rw [if_neg hw] at h
        rcases ih h with hh | ⟨X, hm, hp⟩
        · exact Or.inl (List.mem_cons.mpr (Or.inr hh))
        · exact Or.inr ⟨X, List.mem_cons.mpr (Or.inr hm), hp⟩

/-- The permission-matching semantics of `HasPermission`, stated the way
the specification describes the Authorization Engine: grant exactly when
the required permission appears verbatim, or some entry has the wildcard
form `X ++ ":*"` and the required permission starts with `X ++ ":"`. -/
theorem hasPermission_iff (perms : List GoStr) (req : GoStr) :
    HasPermission perms req = true ↔
      req ∈ perms ∨
        ∃ X, (X ++ wcSuffix) ∈ perms ∧ ∃ t, req = (X ++ [':']) ++ t := by
  constructor
  · intro h
    rcases hasPermission_elim h with hh | ⟨X, hm, hp⟩
    · exact Or.inl hh
    · exact Or.inr ⟨X, hm, (startsWith_iff _ _).mp hp⟩
  · rintro (hh | ⟨X, hm, hp⟩)
    · exact hasPermission_of_mem hh
    · exact hasPermission_of_wildcard hm ((startsWith_iff _ _).mpr hp)

/-- Claim C1: for every role slug present in the policy map and every
required permission, `User.Can` returns true if and only if the required
permission is present verbatim in that role's permission set, or some
entry has the wildcard form `X:*` and the required permission starts with
`X` followed by a literal colon. -/
theorem can_wildcard_iff (u : User) (policy : PolicyMap)
    (perms : List GoStr) (req : GoStr)
    (h : lookupPolicy policy u.role = some perms) :
    u.Can req policy = true ↔
      req ∈ perms ∨
        ∃ X, (X ++ wcSuffix) ∈ perms ∧ ∃ t, req = (X ++ [':']) ++ t := by
  unfold User.Can
  rw [h]
  exact hasPermission_iff perms req

/-- The example role and policy from the specification's wildcard-matching
test: role `manager` holding the single permission `inventory:*`. -/
def managerUser : User :=
  { id := 1, username := gs "meg", displayName := gs "Meg",
    hash := gs "", role := gs "manager", active := true }

def managerPolicy : PolicyMap := [(gs "manager", [gs "inventory:*"])]

/-- Witness for C1, at the specification's concrete example: under policy
mapping `manager` to `inventory:*`, the permission `inventory:delete` is
granted and `inventoryextra:delete` is denied. -/
theorem can_wildcard_iff_witness :
    lookupPolicy managerPolicy managerUser.role = some [gs "inventory:*"] ∧
    managerUser.Can (gs "inventory:delete") managerPolicy = true ∧
    managerUser.Can (gs "inventoryextra:delete") managerPolicy = false := by
  refine ⟨by decide, ?_, ?_⟩
  · exact (can_wildcard_iff managerUser managerPolicy [gs "inventory:*"]
      (gs "inventory:delete") (by decide)).mpr
      (Or.inr ⟨gs "inventory", by decide, gs "delete", by decide⟩)
  · have hiff := can_wildcard_iff managerUser managerPolicy [gs "inventory:*"]
      (gs "inventoryextra:delete") (by decide)
    cases hb : managerUser.Can (gs "inventoryextra:delete") managerPolicy with
    | false => rfl
    | true =>
      exfalso
      rcases hiff.mp hb with hh | ⟨X, hm, t, ht⟩
      · exact absurd hh (by decide)
      · have hX : X ++ wcSuffix = gs "inventory:*" := by
          simpa using hm
        have h2 : X ++ wcSuffix = gs "inventory" ++ gs ":*" := by
          rw [hX]; decide
        have hXeq : X = gs "inventory" := (List.append_inj' h2 (by decide)).1
        have hsw : startsWith (gs "inventoryextra:delete")
            (gs "inventory" ++ [':']) = true :=
          (startsWith_iff _ _).mpr ⟨t, by rw [← hXeq]; exact ht⟩
        exact absurd hsw (by decide)

/-- Claim C2: a role slug absent from the policy map is denied every
permission check; `User.Can` returns false immediately. -/
theorem can_missing_role_denied (u : User) (policy : PolicyMap) (req : GoStr)
    (h : lookupPolicy policy u.role = none) :
    u.Can req policy = false := by
  unfold User.Can
  rw [h]

/-- Witness for C2: the ghost-role example from the specification — a
policy map lacking the key `ghost-role` denies `order:read` to a user
claiming that role. -/
theorem can_missing_role_denied_witness :
    lookupPolicy managerPolicy (gs "ghost-role") = none ∧
    ({ managerUser with role := gs "ghost-role" } : User).Can
      (gs "order:read") managerPolicy = false :=
  ⟨by decide,
   can_missing_role_denied { managerUser with role := gs "ghost-role" }
     managerPolicy (gs "order:read") (by decide)⟩

/-! ## Token codec

`GenerateToken` and `ValidateToken` (src/unnamed/part_004, lines 71-107)
delegate signing and parsing to the external `golang-jwt/jwt/v5` library,
whose code is not part of this repository. The library's behavior is
modelled here following the specification's Token Codec contract:
structured tokens carrying an algorithm tag, claims, and an HMAC signature
over the secret, algorithm and claims; verification re-derives the
signature, pins the algorithm to the HMAC family, and checks expiry
against the verification time (timestamps in whole seconds). -/

/-- Modelled from the spec: the signing-algorithm tag carried in a token
header. `HS256`, `HS384` and `HS512` form the symmetric HMAC family the
library type `jwt.SigningMethodHMAC` covers; the remaining tags stand for
algorithms outside that family. -/
inductive Alg
  | HS256
  | HS384
  | HS512
  | RS256
  | ES256
  | noAlg
deriving DecidableEq, Repr

/-- The keyfunc check in `ValidateToken`: is the declared method a member
of the accepted symmetric HMAC family? -/
def Alg.isHMAC : Alg → Bool
  | .HS256 => true
  | .HS384 => true
  | .HS512 => true
  | _ => false

/-- Embedding of `jwt.RegisteredClaims` as used here: expiry, issued-at
(numeric dates in seconds) and the issuer string. -/
structure RegisteredClaims where
  expiresAt : Int
  issuedAt : Int
  issuer : GoStr
deriving DecidableEq, Repr

/-- Embedding of the `Claims` payload (src/unnamed/part_004, lines
23-27): user id, role slug, and the registered claims. -/
structure Claims where
  userID : Int
  role : GoStr
  reg : RegisteredClaims
deriving DecidableEq, Repr

/-- A signed token: declared algorithm, claims payload, and signature. -/
structure Token where
  alg : Alg
  claims : Claims
  sig : Nat
deriving DecidableEq, Repr

/-- Injection of an integer into the naturals, for feeding timestamps and
ids to the modelled MAC. -/
def encodeInt (i : Int) : Nat := 2 * i.natAbs + (if i < 0 then 1 else 0)

def encodeStr (s : GoStr) : List Nat := s.map Char.toNat

def algCode : Alg → Nat
  | .HS256 => 0
  | .HS384 => 1
  | .HS512 => 2
  | .RS256 => 3
  | .ES256 => 4
  | .noAlg => 5

def encodeClaims (c : Claims) : List Nat :=
  encodeInt c.userID :: encodeInt c.reg.expiresAt :: encodeInt c.reg.issuedAt ::
    (encodeStr c.role ++ encodeStr c.reg.issuer)

/-- Modelled from the spec: the keyed MAC the library computes over the
token header and payload with the process-wide secret. A concrete
polynomial fold stands in for HMAC-SHA; the claims need only that
re-computation with the same secret, algorithm and claims reproduces the
same value. -/
def hmacSig (secret : GoStr) (alg : Alg) (c : Claims) : Nat :=
  (encodeStr secret ++ algCode alg :: encodeClaims c).foldl
    (fun acc n => acc * 1000003 + n + 1) 7

/-- The token time-to-live: Go `tokenTTL = 24 * time.Hour`
(src/unnamed/part_004, line 19), in seconds. -/
def tokenTTL : Int := 24 * 60 * 60

/-- Embedding of `GenerateToken` (src/unnamed/part_004, lines 71-85):
build claims with `issuedAt = now`, `expiresAt = now + tokenTTL` and the
fixed issuer, then sign with HS256 over the process-wide secret. `now` is
the issuance time in seconds, passed explicitly. -/
def GenerateToken (secret : GoStr) (now : Int) (u : User) : Token :=
  let c : Claims :=
    { userID := u.id, role := u.role,
      reg := { expiresAt := now + tokenTTL, issuedAt := now,
               issuer := gs "inventory-system" } }
  { alg := .HS256, claims := c, sig := hmacSig secret .HS256 c }

/-- Modelled from the spec: the distinct verification failures of the
Token Codec contract — algorithm mismatch, bad signature, expired token. -/
inductive TokenError
  | algMismatch
  | sigInvalid
  | expired
deriving DecidableEq, Repr

/-- Embedding of `ValidateToken` (src/unnamed/part_004, lines 89-107)
over the modelled library parse: reject any method outside the HMAC
family (the keyfunc check), then verify the signature against the secret,
then reject tokens whose expiry is not in the future at time `now`. -/
def ValidateToken (secret : GoStr) (now : Int) (t : Token) :
    Except TokenError Claims :=
  if !t.alg.isHMAC then .error .algMismatch
  else if t.sig ≠ hmacSig secret t.alg t.claims then .error .sigInvalid
  else if t.claims.reg.expiresAt ≤ now then .error .expired
  else .ok t.claims

/-- Claim C3: verifying a token immediately after issuing it — same
process-wide secret, any verification time from issuance up to (strictly
before) expiry — succeeds and returns claims carrying the user id and
role slug passed to issuance. -/
theorem token_round_trip (secret : GoStr) (u : User) (T0 t : Int)
    (_h1 : T0 ≤ t) (h2 : t < T0 + tokenTTL) :
    ∃ c : Claims, ValidateToken secret t (GenerateToken secret T0 u) = .ok c ∧
      c.userID = u.id ∧ c.role = u.role := by
  refine ⟨{ userID := u.id, role := u.role,
            reg := { expiresAt := T0 + tokenTTL, issuedAt := T0,
                     issuer := gs "inventory-system" } }, ?_, rfl, rfl⟩
  unfold ValidateToken GenerateToken
  simp [Alg.isHMAC, not_le.mpr h2]

/-- Witness for C3: a concrete round trip at issuance time 1000,
verification time 1000, user id 7, role `clerk`. -/
theorem token_round_trip_witness :
    (1000 : Int) ≤ 1000 ∧ (1000 : Int) < 1000 + tokenTTL ∧
    ∃ c : Claims,
      ValidateToken (gs "super-secret-dev-key") 1000
        (GenerateToken (gs "super-secret-dev-key") 1000
          { managerUser with id := 7, role := gs "clerk" }) = .ok c ∧
      c.userID = 7 ∧ c.role = gs "clerk" :=
  ⟨by decide, by decide,
   token_round_trip (gs "super-secret-dev-key")
     { managerUser with id := 7, role := gs "clerk" } 1000 1000
     (by decide) (by decide)⟩

/-- Claim C4: any token whose header declares an algorithm outside the
accepted symmetric HMAC family is rejected with the algorithm-mismatch
error and yields no claims, whatever the rest of the token contains. -/
theorem validate_non_hmac_rejected (secret : GoStr) (now : Int) (t : Token)
    (h : t.alg.isHMAC = false) :
    ValidateToken secret now t = .error .algMismatch ∧
    ∀ c : Claims, ValidateToken secret now t ≠ .ok c := by
  have hv : ValidateToken secret now t = .error .algMismatch := by
    unfold ValidateToken
    simp [h]
  exact ⟨hv, fun c hc => by rw [hv] at hc; cases hc⟩

/-- Witness for C4: an otherwise well-formed token declaring RS256 — even
one carrying a correctly computed MAC value — is rejected. -/
theorem validate_non_hmac_rejected_witness :
    (Alg.RS256.isHMAC = false) ∧
    ValidateToken (gs "super-secret-dev-key") 1000
      { alg := .RS256,
        claims := (GenerateToken (gs "super-secret-dev-key") 1000 managerUser).claims,
        sig := hmacSig (gs "super-secret-dev-key") .RS256
          (GenerateToken (gs "super-secret-dev-key") 1000 managerUser).claims } =
      .error .algMismatch :=
  ⟨by decide,
   (validate_non_hmac_rejected (gs "super-secret-dev-key") 1000 _ (by decide)).1⟩

/-- Claim C5: a token issued at `T0` carries expiry `T0 + tokenTTL`;
verification at `T0 + tokenTTL + 1` fails with the expiry error, while
verification at any time strictly before the expiry does not fail for
expiry. -/
theorem token_expiry (secret : GoStr) (u : User) (T0 : Int) :
    ValidateToken secret (T0 + tokenTTL + 1) (GenerateToken secret T0 u) =
      .error .expired ∧
    ∀ t : Int, t < T0 + tokenTTL →
      ValidateToken secret t (GenerateToken secret T0 u) ≠ .error .expired := by
  constructor
  · unfold ValidateToken GenerateToken
    have hle : (T0 + tokenTTL : Int) ≤ T0 + tokenTTL + 1 := by omega
    simp [Alg.isHMAC, hle]
  · intro t ht
    unfold ValidateToken GenerateToken
    simp [Alg.isHMAC, not_le.mpr ht]

/-- Witness for C5: issuance at time 0 — verification one second past the
24-hour expiry fails as expired, verification at second 5 does not. -/
theorem token_expiry_witness :
    ValidateToken (gs "super-secret-dev-key") (0 + tokenTTL + 1)
      (GenerateToken (gs "super-secret-dev-key") 0 managerUser) =
      .error .expired ∧
    ((5 : Int) < 0 + tokenTTL ∧
      ValidateToken (gs "super-secret-dev-key") 5
        (GenerateToken (gs "super-secret-dev-key") 0 managerUser) ≠
        .error .expired) :=
  ⟨(token_expiry (gs "super-secret-dev-key") managerUser 0).1,
   by decide,
   (token_expiry (gs "super-secret-dev-key") managerUser 0).2 5 (by decide)⟩

/-! ## Password hashing

`User.SetPassword`, `User.CheckPassword` (src/unnamed/part_004, lines
34-47) and `utils.HashPassword`, `utils.CheckPassword` (src/unnamed/
part_006, lines 195-204) delegate to the external `golang.org/x/crypto/
bcrypt` package, whose code is not part of this repository. Its behavior
is modelled: `GenerateFromPassword` draws a fresh random salt per call
(made an explicit parameter here), fails only when the password exceeds
72 bytes, and otherwise returns a hash string; `CompareHashAndPassword`
succeeds exactly when the hash encodes the given password. -/

/-- Modelled from the spec: the hash string bcrypt derives from a salt
and a password. The model keeps salt and password recoverable behind a
separator, which suffices for the verification claims here. -/
def bcryptHashStr (salt password : GoStr) : GoStr := salt ++ '$' :: password

/-- Modelled from the spec: `bcrypt.GenerateFromPassword`. It performs no
minimum-length or non-empty check on the password; its only input failure
is a password longer than 72 bytes. -/
def bcryptGenerateFromPassword (salt password : GoStr) : Except GoStr GoStr :=
  if password.length > 72 then .error (gs "bcrypt: password length exceeds 72 bytes")
  else .ok (bcryptHashStr salt password)

/-- Modelled from the spec: `bcrypt.CompareHashAndPassword`, as the
Boolean the callers reduce it to — true exactly when the stored hash
matches the supplied password. -/
def bcryptCompareHashAndPassword (hash password : GoStr) : Bool :=
  hasSuffix hash ('$' :: password)

/-- Embedding of `User.SetPassword` (src/unnamed/part_004, lines 34-41):
hash the raw password with bcrypt and store the hash on the user; any
bcrypt error is returned unchanged and the user is not updated. -/
def User.SetPassword (u : User) (salt rawPassword : GoStr) :
    Except GoStr User :=
  match bcryptGenerateFromPassword salt rawPassword with
  | .error e => .error e
  | .ok bytes => .ok { u with hash := bytes }

/-- Embedding of `utils.HashPassword` (src/unnamed/part_006, lines
195-198): a direct wrapper around `bcrypt.GenerateFromPassword`. -/
def HashPassword (salt password : GoStr) : Except GoStr GoStr :=
  bcryptGenerateFromPassword salt password

/-- Embedding of `User.CheckPassword` (src/unnamed/part_004, lines
44-47): compare the stored hash with the raw password. -/
def User.CheckPassword (u : User) (rawPassword : GoStr) : Bool :=
  bcryptCompareHashAndPassword u.hash rawPassword

/-- The error value `ErrPasswordTooShort` (src/unnamed/part_005, line 9). -/
def ErrPasswordTooShort : GoStr := gs "password must be at least 6 characters"

/-- The zero-value temporary user that `ChangePassword` hashes through. -/
def emptyUser : User :=
  { id := 0, username := [], displayName := [], hash := [], role := [],
    active := false }

/-- The observable outcome of `userService.ChangePassword`: either an
error, or the `(id, hash)` pair pushed to `repo.UpdatePassword`. -/
inductive ChangePwResult
  | failed (err : GoStr)
  | updated (id : Int) (hash : GoStr)
deriving DecidableEq, Repr

/-- Embedding of `userService.ChangePassword` (src/unnamed/part_005,
lines 188-202): reject passwords shorter than 6 characters with
`ErrPasswordTooShort`, otherwise hash via a temporary user's
`SetPassword` and push the new hash to the repository. -/
def ChangePassword (salt : GoStr) (id : Int) (newPassword : GoStr) :
    ChangePwResult :=
  if newPassword.length < 6 then .failed ErrPasswordTooShort
  else
    match emptyUser.SetPassword salt newPassword with
    | .error e => .failed e
    | .ok tempUser => .updated id tempUser.hash

/-- Counterexample to claim C6 as stated: the empty raw password — which
is both empty and shorter than 6 characters — makes `User.SetPassword`
and `utils.HashPassword` succeed and produce a hash; neither performs any
weak-input check. -/
theorem setPassword_empty_input_succeeds :
    ([] : GoStr).length < 6 ∧
    emptyUser.SetPassword (gs "persalt") [] =
      .ok { emptyUser with hash := bcryptHashStr (gs "persalt") [] } ∧
    HashPassword (gs "persalt") [] = .ok (bcryptHashStr (gs "persalt") []) := by
  refine ⟨by decide, ?_, ?_⟩ <;> rfl

/-- Claim C6 amended: the minimum-length check lives in the service
layer, not the hashing primitive — `userService.ChangePassword` rejects
any password shorter than 6 characters with `ErrPasswordTooShort` before
any hash reaches the repository, while `User.SetPassword` itself accepts
the same input and produces a hash. -/
theorem changePassword_short_rejected (salt : GoStr) (id : Int)
    (pw : GoStr) (h : pw.length < 6) :
    ChangePassword salt id pw = .failed ErrPasswordTooShort ∧
    emptyUser.SetPassword salt pw =
      .ok { emptyUser with hash := bcryptHashStr salt pw } := by
  constructor
  · unfold ChangePassword
    simp [h]
  · unfold User.SetPassword bcryptGenerateFromPassword
    have h72 : ¬ pw.length > 72 := by omega
    simp [h72]

/-- Witness for the amended C6, at the empty password. -/
theorem changePassword_short_rejected_witness :
    ([] : GoStr).length < 6 ∧
    ChangePassword (gs "persalt") 3 [] = .failed ErrPasswordTooShort ∧
    emptyUser.SetPassword (gs "persalt") [] =
      .ok { emptyUser with hash := bcryptHashStr (gs "persalt") [] } :=
  ⟨by decide,
   (changePassword_short_rejected (gs "persalt") 3 [] (by decide)).1,
   (changePassword_short_rejected (gs "persalt") 3 [] (by decide)).2⟩

/-! ## Login -/

/-- Failures a repository read can surface to `Login`; their identity is
irrelevant because `Login` masks them all. -/
inductive DBErr
  | notFound
  | readFailed
deriving DecidableEq, Repr

/-- The error values `Login` can return: `ErrInvalidCredentials`
(src/internal/entities/user/repository.go, line 15) and the inline
`errors.New` value for inactive accounts (src/unnamed/part_005, line
103). -/
inductive LoginErr
  | invalidCredentials
  | accountInactive
deriving DecidableEq, Repr

/-- The user-visible message text carried by each `Login` error value. -/
def LoginErr.message : LoginErr → GoStr
  | .invalidCredentials => gs "invalid credentials"
  | .accountInactive => gs "user account is inactive"

/-- Embedding of `userService.Login` (src/unnamed/part_005, lines
93-118): look the user up by username, masking every store error as
`ErrInvalidCredentials`; reject inactive accounts; reject a failed
password check as `ErrInvalidCredentials`; otherwise issue a token. The
user store is passed as a function, the issuance time and secret
explicitly. -/
def Login (getByUsername : GoStr → Except DBErr User) (secret : GoStr)
    (now : Int) (username password : GoStr) :
    Except LoginErr (Token × User) :=
  match getByUsername username with
  | .error _ => .error .invalidCredentials
  | .ok u =>
    if !u.active then .error .accountInactive
    else if !(u.CheckPassword password) then .error .invalidCredentials
    else .ok (GenerateToken secret now u, u)

/-- Claim C9: a login whose username is unknown to the store and a login
whose username exists with an active account but a wrong password return
the same error value, so the failure does not disclose which factor
failed. -/
theorem login_uniform_failure (store : GoStr → Except DBErr User)
    (secret : GoStr) (now : Int)
    (user1 pw1 user2 pw2 : GoStr) (e : DBErr) (u : User)
    (h1 : store user1 = .error e)
    (h2 : store user2 = .ok u)
    (hact : u.active = true)
    (hpw : u.CheckPassword pw2 = false) :
    Login store secret now user1 pw1 = Login store secret now user2 pw2 ∧
    Login store secret now user1 pw1 = .error .invalidCredentials := by
  have hl1 : Login store secret now user1 pw1 = .error .invalidCredentials := by
    unfold Login
    rw [h1]
  have hl2 : Login store secret now user2 pw2 = .error .invalidCredentials := by
    unfold Login
    rw [h2]
    simp [hact, hpw]
  exact ⟨hl1.trans hl2.symm, hl1⟩

/-- A concrete one-user store for the login witnesses: `alice`, active,
with the bcrypt hash of `secret1`. -/
def aliceUser : User :=
  { id := 2, username := gs "alice", displayName := gs "Alice",
    hash := bcryptHashStr (gs "persalt") (gs "secret1"),
    role := gs "clerk", active := true }

def aliceStore (username : GoStr) : Except DBErr User :=
  if username = gs "alice" then .ok aliceUser else .error .notFound

/-- Witness for C9: an unknown-username login and a wrong-password login
against alice's record produce the identical error. -/
theorem login_uniform_failure_witness :
    aliceStore (gs "bob") = .error .notFound ∧
    aliceStore (gs "alice") = .ok aliceUser ∧
    aliceUser.active = true ∧
    aliceUser.CheckPassword (gs "wrongpw") = false ∧
    Login aliceStore (gs "super-secret-dev-key") 1000 (gs "bob") (gs "pw") =
      Login aliceStore (gs "super-secret-dev-key") 1000 (gs "alice") (gs "wrongpw") :=
  ⟨rfl, rfl, by decide, by decide,
   (login_uniform_failure aliceStore (gs "super-secret-dev-key") 1000
     (gs "bob") (gs "pw") (gs "alice") (gs "wrongpw") .notFound aliceUser
     rfl rfl (by decide) (by decide)).1⟩

/-- Claim C10: a user whose active flag is false makes `Login` fail with
the distinct inactive-account error — whose message is literally
`user account is inactive` — for every supplied password, correct or
not, so no password check influences the outcome and no token is issued;
this error is distinguishable from the invalid-credentials error. -/
theorem login_inactive_distinct (store : GoStr → Except DBErr User)
    (secret : GoStr) (now : Int) (username : GoStr) (u : User)
    (h : store username = .ok u) (hin : u.active = false) :
    (∀ password : GoStr,
      Login store secret now username password = .error .accountInactive) ∧
    LoginErr.message .accountInactive = gs "user account is inactive" ∧
    (LoginErr.accountInactive ≠ LoginErr.invalidCredentials) := by
  refine ⟨?_, rfl, by decide⟩
  intro password
  unfold Login
  rw [h]
  simp [hin]

/-- A store holding only an inactive copy of alice, for the C10 witness. -/
def inactiveStore (_ : GoStr) : Except DBErr User :=
  .ok { aliceUser with active := false }

/-- Witness for C10: an inactive copy of alice is rejected as inactive
even when the supplied password `secret1` is the correct one. -/
theorem login_inactive_distinct_witness :
    inactiveStore (gs "alice") = .ok { aliceUser with active := false } ∧
    ({ aliceUser with active := false } : User).active = false ∧
    ({ aliceUser with active := false } : User).CheckPassword (gs "secret1") = true ∧
    Login inactiveStore
      (gs "super-secret-dev-key") 1000 (gs "alice") (gs "secret1") =
      .error .accountInactive :=
  ⟨rfl, by decide, by decide,
   (login_inactive_distinct inactiveStore
     (gs "super-secret-dev-key") 1000 (gs "alice")
     { aliceUser with active := false } rfl (by decide)).1 (gs "secret1")⟩

/-! ## Request pipeline -/

/-- Model of Go `strings.Split s " "` for a single-character separator:
splits at every occurrence of the separator, and on the empty string
returns a single empty field, as the Go function does. -/
def splitOnChar (sep : Char) : GoStr → List GoStr
  | [] => [[]]
  | c :: rest =>
    if c = sep then [] :: splitOnChar sep rest
    else
      match splitOnChar sep rest with
      | r :: rs => (c :: r) :: rs
      | [] => [[c]]

/-- The observable outcome of the authentication middleware on one
request: a rejection carrying the HTTP status and whether token
verification had been invoked before rejecting, or a pass to the wrapped
handler carrying the context values it injects. -/
inductive MWResult
  | rejected (status : Nat) (validateCalled : Bool)
  | passed (userID : Int) (role : GoStr)
deriving DecidableEq, Repr

/-- Embedding of `AuthMiddleware` (src/cmd/server/main.go, lines 144-171;
`utils.RequireAuth` in src/unnamed/part_006, lines 254-282 is line for
line the same logic): an empty or absent authorization header is rejected
401; a header that does not split on spaces into exactly two fields with
the first literally `Bearer` is rejected 401; otherwise the second field
goes to token verification, whose failure is a 401 and whose success
passes the claims into the request context. The header is `none` when
absent (Go `Header.Get` then yields the empty string), and the
verification step is passed in as a function. -/
def AuthMiddleware (validate : GoStr → Except TokenError Claims)
    (authHeader : Option GoStr) : MWResult :=
  if authHeader.getD [] = [] then .rejected 401 false
  else if (splitOnChar ' ' (authHeader.getD [])).length ≠ 2 ∨
      (splitOnChar ' ' (authHeader.getD [])).headD [] ≠ gs "Bearer" then
    .rejected 401 false
  else
    match validate ((splitOnChar ' ' (authHeader.getD [])).getD 1 []) with
    | .error _ => .rejected 401 true
    | .ok c => .passed c.userID c.role

/-- The wire shape the middleware requires of the authorization header:
exactly two space-separated fields, the first literally `Bearer`. -/
def bearerShapeOK (h : GoStr) : Prop :=
  (splitOnChar ' ' h).length = 2 ∧ (splitOnChar ' ' h).headD [] = gs "Bearer"

instance (h : GoStr) : Decidable (bearerShapeOK h) := by
  unfold bearerShapeOK
  infer_instance

/-- Claim C7: whenever the authorization header is absent or fails the
`Bearer` two-field wire shape, the authentication middleware rejects the
request 401 without ever invoking token verification, and the wrapped
handler is not called — for every possible verification function. -/
theorem authMiddleware_malformed_header_401
    (validate : GoStr → Except TokenError Claims) (hdr : Option GoStr)
    (h : hdr = none ∨ ¬ bearerShapeOK (hdr.getD [])) :
    AuthMiddleware validate hdr = .rejected 401 false := by
  have hshape : ¬ bearerShapeOK (hdr.getD []) := by
    rcases h with rfl | hh
    · intro hc
      rcases hc with ⟨hlen, _⟩
      simp [Option.getD, splitOnChar] at hlen
    · exact hh
  unfold bearerShapeOK at hshape
  rw [not_and_or] at hshape
  unfold AuthMiddleware
  by_cases hnil : hdr.getD [] = []
  · rw [if_pos hnil]
  · rw [if_neg hnil, if_pos hshape]

/-- Witness for C7, at three concrete requests: a missing header, a
lowercase `bearer` scheme, and a three-field header, each rejected 401
with verification never invoked, under a verification function that
would accept anything. -/
theorem authMiddleware_malformed_header_401_witness :
    (¬ bearerShapeOK ((some (gs "bearer tok")).getD [])) ∧
    (¬ bearerShapeOK ((some (gs "Bearer a b")).getD [])) ∧
    AuthMiddleware (fun _ => .ok (GenerateToken (gs "k") 0 managerUser).claims)
      none = .rejected 401 false ∧
    AuthMiddleware (fun _ => .ok (GenerateToken (gs "k") 0 managerUser).claims)
      (some (gs "bearer tok")) = .rejected 401 false ∧
    AuthMiddleware (fun _ => .ok (GenerateToken (gs "k") 0 managerUser).claims)
      (some (gs "Bearer a b")) = .rejected 401 false :=
  ⟨by decide, by decide,
   authMiddleware_malformed_header_401 _ none (Or.inl rfl),
   authMiddleware_malformed_header_401 _ (some (gs "bearer tok"))
     (Or.inr (by decide)),
   authMiddleware_malformed_header_401 _ (some (gs "Bearer a b"))
     (Or.inr (by decide))⟩

/-! ## Authorization middleware -/

/-- Embedding of the role entity (src/internal/entities/role): slug and
permission list are the fields the policy map is built from. -/
structure Role where
  slug : GoStr
  permissions : List GoStr
deriving DecidableEq, Repr

/-- Embedding of `roleService.GetPolicyMap`
(src/internal/entities/role/service.go, lines 146-161): propagate a
failed role-store read unchanged; otherwise fold the roles into a map
from slug to permission list with Go map-assignment semantics. The
repository `List` result is passed in as an `Except`. -/
def GetPolicyMap (listRoles : Except GoStr (List Role)) :
    Except GoStr PolicyMap :=
  match listRoles with
  | .error e => .error e
  | .ok roles =>
    .ok (roles.foldl (fun m r => policyInsert m r.slug r.permissions) [])

/-- The observable outcome of the authorization middleware on one
request: 401 when the context has no user id or the user record is not
found, 500 when the policy map cannot be loaded, 403 (naming the denied
permission) when policy denies, or a run of the wrapped handler. -/
inductive AuthzOutcome
  | unauth401
  | policyFail500
  | forbidden403 (perm : GoStr)
  | allowed
deriving DecidableEq, Repr

/-- Embedding of `Authorize` (src/cmd/server/main.go, lines 176-211):
read the user id from the request context, load the full user record,
load the policy map from the role service, and apply `User.Can`; each
failure maps to its distinct outcome. The context value, user store and
role-store read are passed explicitly. -/
def Authorize (requiredPerm : GoStr) (ctxUserID : Option Int)
    (getUser : Int → Except GoStr User)
    (listRoles : Except GoStr (List Role)) : AuthzOutcome :=
  match ctxUserID with
  | none => .unauth401
  | some uid =>
    match getUser uid with
    | .error _ => .unauth401
    | .ok u =>
      match GetPolicyMap listRoles with
      | .error _ => .policyFail500
      | .ok policy =>
        if u.Can requiredPerm policy then .allowed
        else .forbidden403 requiredPerm

/-- Claim C8: when the role-store read behind `GetPolicyMap` fails, the
authorization middleware answers with the 500-class outcome — an outcome
distinct from every 403 permission denial and from running the wrapped
handler, so the failure is never treated as an empty permissive policy. -/
theorem authorize_policy_failure_500 (requiredPerm : GoStr) (uid : Int)
    (getUser : Int → Except GoStr User) (u : User) (e : GoStr)
    (hu : getUser uid = .ok u) :
    Authorize requiredPerm (some uid) getUser (.error e) = .policyFail500 ∧
    (∀ p : GoStr, AuthzOutcome.policyFail500 ≠ .forbidden403 p) ∧
    AuthzOutcome.policyFail500 ≠ .allowed := by
  refine ⟨?_, ?_, ?_⟩
  · simp [Authorize, GetPolicyMap, hu]
  · intro p hc
    cases hc
  · intro hc
    cases hc

/-- A one-user store for the C8 witness. -/
def managerStore (_ : Int) : Except GoStr User := .ok managerUser

/-- Witness for C8: a concrete request by the manager user against a
failing role store is answered 500, not 403 and not allowed. -/
theorem authorize_policy_failure_500_witness :
    managerStore 1 = .ok managerUser ∧
    Authorize (gs "inventory:delete") (some 1) managerStore
      (.error (gs "role store down")) = .policyFail500 ∧
    (∀ p : GoStr, AuthzOutcome.policyFail500 ≠ .forbidden403 p) ∧
    AuthzOutcome.policyFail500 ≠ .allowed :=
  ⟨rfl,
   (authorize_policy_failure_500 (gs "inventory:delete") 1 managerStore
     managerUser (gs "role store down") rfl).1,
   (authorize_policy_failure_500 (gs "inventory:delete") 1 managerStore
     managerUser (gs "role store down") rfl).2.1,
   (authorize_policy_failure_500 (gs "inventory:delete") 1 managerStore
     managerUser (gs "role store down") rfl).2.2⟩

end PGo
